import Mathlib

/-!
Shallow embedding of `src/Araras.py`, a read-only analytics dashboard over a
spreadsheet of security-camera inventory rows.  The embedding covers the parts
the behavioural claims are about: the cleaning stage of `carregar_dados`
(lines 37–40), the sidebar category option list (line 57), the three-stage
filter `df_filtrado` (lines 69–75), the KPI max-row lookup (lines 88–92), and
the group-by-sum / sort / truncate pipelines feeding the charts (lines
101–103, 123, 139).  Pure UI rendering and file I/O are outside the model;
the cleaning stage is modelled on the list of rows the spreadsheet reader
produced, after the file-missing and missing-column checks have passed.
-/

namespace Araras

/-- One raw spreadsheet row, as it stands right after
`pd.to_numeric(df["Quantidade"], errors="coerce")` (line 37).  String cells
are `none` when the cell is missing (NaN).  `quantidade` is the result of the
numeric coercion: `some q` when the cell coerced to the number `q`, `none`
when the cell was empty or coercion failed (NaN).  Spreadsheet numbers are
modelled as rationals. -/
structure RawRecord where
  tipo : Option String
  subtipo : Option String
  locais : Option String
  quantidade : Option ℚ
deriving DecidableEq

/-- One cleaned row of the Dataset.  After `dropna(subset=["Quantidade",
"Subtipo", "Locais"])` (line 38) the `Subtipo` and `Locais` cells are present
and `Quantidade` is an integer (line 39); `Tipo` may still be missing, since
it is not in the `dropna` subset. -/
structure Record where
  tipo : Option String
  subtipo : String
  locais : String
  quantidade : ℤ
deriving DecidableEq

/-- `astype(int)` (line 39) on a numeric value: C-style truncation toward
zero, e.g. `2.5 ↦ 2` and `-2.5 ↦ -2`. -/
def truncQ (q : ℚ) : ℤ := q.num.tdiv (q.den : ℤ)

/-- The per-row effect of lines 37–39: a row is kept exactly when the coerced
`Quantidade` and the `Subtipo` and `Locais` cells are all present, and its
`Quantidade` is then truncated to an integer.  `Tipo` is carried over
unchanged (possibly missing). -/
def cleanRow (r : RawRecord) : Option Record :=
  match r.quantidade, r.subtipo, r.locais with
  | some q, some s, some l => some ⟨r.tipo, s, l, truncQ q⟩
  | _, _, _ => none

/-- The cleaning stage of `carregar_dados` (lines 37–40), applied to the rows
the spreadsheet reader produced (file present, all four required columns
present). -/
def carregar_dados (rows : List RawRecord) : List Record :=
  rows.filterMap cleanRow

/-- ASCII lowercasing of a string, as a list of characters.  (The
kernel-friendly counterpart of `str.lower`.) -/
def lowerChars (s : String) : List Char := s.data.map Char.toLower

/-- The characters that are metacharacters of the regular-expression engine
behind `Series.str.contains` (pandas default `regex=True`). -/
def regexMeta : List Char :=
  ['.', '^', '$', '*', '\x7b', '\x7d', '[', ']', '\\', '|', '(', ')', '+', '?']

/-- One token of the modelled regular-expression fragment: a literal
character, or the wildcard `.` (which matches any single character). -/
inductive RTok where
  | dot : RTok
  | lit : Char → RTok
deriving DecidableEq

/-- Parse one pattern character: `.` becomes the wildcard, any other
metacharacter is outside the modelled fragment, everything else is a
literal. -/
def parseTok (c : Char) : Option RTok :=
  if c = '.' then some RTok.dot
  else if c ∈ regexMeta then none
  else some (RTok.lit c)

/-- Parse a pattern (character list) into the modelled fragment; `none` when
the pattern uses a metacharacter other than `.`. -/
def parsePat : List Char → Option (List RTok)
  | [] => some []
  | c :: cs =>
    match parseTok c, parsePat cs with
    | some t, some ts => some (t :: ts)
    | _, _ => none

/-- Whether one pattern token matches one character. -/
def tokMatch : RTok → Char → Bool
  | RTok.dot, _ => true
  | RTok.lit c, ch => c == ch

/-- Whether the pattern matches a prefix of the given characters. -/
def matchHere : List RTok → List Char → Bool
  | [], _ => true
  | _ :: _, [] => false
  | t :: ts, c :: cs => tokMatch t c && matchHere ts cs

/-- `re.search` semantics: the pattern matches somewhere in the string. -/
def regexSearch (ts : List RTok) (s : List Char) : Bool :=
  s.tails.any (fun suf => matchHere ts suf)

/-- Model of `Series.str.contains(pat, case=False, na=False)` on one cell
(line 75).  A missing cell gives `False` (`na=False`).  Otherwise the search
term is interpreted as a regular expression (`regex=True` is the pandas
default) and matched case-insensitively anywhere in the string (`re.search`
with `re.IGNORECASE`).  Only patterns built from literal characters and the
wildcard `.` are modelled; a pattern using any other metacharacter is outside
the model (the code hands it to the full `re` engine), and this function
returns `false` for it. -/
def str_contains_ci_na_false (cell : Option String) (pat : String) : Bool :=
  match cell with
  | none => false
  | some s =>
    match parsePat (lowerChars pat) with
    | some ts => regexSearch ts (lowerChars s)
    | none => false

/-- Plain case-insensitive substring containment — the reading of the search
used by the spec ("case-insensitive substring containment of the search term
in `Locais`"). -/
def containsCI (s term : String) : Bool :=
  (lowerChars s).tails.any (fun suf => (lowerChars term).isPrefixOf suf)

/-- The three sidebar selections (lines 58, 64, 66): selected category,
selected subcategory (`"Todos"` = no filter for both) and the free-text
location search (empty = no filter). -/
structure FilterState where
  tipo_opcao : String
  subtipo_opcao : String
  busca_local : String
deriving DecidableEq

/-- The filtering logic of lines 69–75: three sequential conditional filters
over the cleaned Dataset.  A missing `Tipo` never equals a selected category
(pandas `==` against NaN is `False`). -/
def df_filtrado (fs : FilterState) (df : List Record) : List Record :=
  let d1 := if fs.tipo_opcao ≠ "Todos"
    then df.filter (fun r => decide (r.tipo = some fs.tipo_opcao)) else df
  let d2 := if fs.subtipo_opcao ≠ "Todos"
    then d1.filter (fun r => decide (r.subtipo = fs.subtipo_opcao)) else d1
  if fs.busca_local ≠ ""
    then d2.filter (fun r => str_contains_ci_na_false (some r.locais) fs.busca_local)
    else d2

/-- The conjunction of the three filter predicates, each skipped (made
vacuously true) when its selector is inactive — the spec's description of the
filter contract. -/
def fullPred (fs : FilterState) (r : Record) : Bool :=
  (decide (fs.tipo_opcao = "Todos") || decide (r.tipo = some fs.tipo_opcao))
  && (decide (fs.subtipo_opcao = "Todos") || decide (r.subtipo = fs.subtipo_opcao))
  && (decide (fs.busca_local = "") || str_contains_ci_na_false (some r.locais) fs.busca_local)

/-- The scan performed by `idxmax` (line 88): fold over the remaining rows,
replacing the current best only on a strictly larger `Quantidade`, so the
first row attaining the maximum wins. -/
def maxAcc (m : Record) (rs : List Record) : Record :=
  rs.foldl (fun best r => if best.quantidade < r.quantidade then r else best) m

/-- `df_filtrado.loc[df_filtrado["Quantidade"].idxmax()]` (line 88): the
first row with the largest `Quantidade`; `none` on an empty frame (where
`idxmax` raises). -/
def maior_linha : List Record → Option Record
  | [] => none
  | r :: rs => some (maxAcc r rs)

/-- `df["Quantidade"].sum()` over a list of cleaned rows. -/
def sumQ (l : List Record) : ℤ := (l.map (fun r => r.quantidade)).sum

/-- Insert into a sorted list, before the first element `b` with `le a b`
(stable insertion). -/
def insertLe {α : Type} (le : α → α → Bool) (a : α) : List α → List α
  | [] => [a]
  | b :: bs => if le a b then a :: b :: bs else b :: insertLe le a bs

/-- Stable insertion sort with respect to a boolean `le`; deterministic model
of the library sorts (`sorted`, `sort_values`).  The claims settled below
never depend on the order of ties. -/
def sortLe {α : Type} (le : α → α → Bool) : List α → List α
  | [] => []
  | a :: as => insertLe le a (sortLe le as)

/-- Distinct values in order of first appearance (`Series.unique`), with an
accumulator of values already seen. -/
def uniqueFirstAux : List String → List String → List String
  | _, [] => []
  | seen, k :: ks =>
    if k ∈ seen then uniqueFirstAux seen ks else k :: uniqueFirstAux (k :: seen) ks

/-- Distinct values of a list in order of first appearance. -/
def uniqueFirst (l : List String) : List String := uniqueFirstAux [] l

/-- Lexicographic order on character lists by code point — how Python
compares strings in `sorted` and how pandas sorts group keys. -/
def charListLe : List Char → List Char → Bool
  | [], _ => true
  | _ :: _, [] => false
  | a :: as, b :: bs => if a = b then charListLe as bs else decide (a < b)

/-- String order used by `sorted` and by pandas `groupby(sort=True)`. -/
def strAsc (a b : String) : Bool := charListLe a.data b.data

/-- `df.groupby(key)["Quantidade"].sum()` for a string key column: group keys
are the distinct key values sorted ascending (`sort=True` is the pandas
default), rows with a missing key are dropped (`dropna=True` default), and
each key is paired with the sum of `Quantidade` over its rows. -/
def groupby_sum (key : Record → Option String) (l : List Record) : List (String × ℤ) :=
  (sortLe strAsc (uniqueFirst (l.filterMap key))).map
    (fun k => (k, sumQ (l.filter (fun r => decide (key r = some k)))))

/-- Descending order on summed quantities (`sort_values("Quantidade",
ascending=False)`, line 101).  The pandas default quicksort leaves the order
of ties unspecified; the model resolves ties stably, and no claim below
depends on the tie order. -/
def descBySum (a b : String × ℤ) : Bool := decide (b.2 ≤ a.2)

/-- Line 101: group by `Locais`, sum `Quantidade`, sort descending by the
sum. -/
def df_locais (l : List Record) : List (String × ℤ) :=
  sortLe descBySum (groupby_sum (fun r => some r.locais) l)

/-- Lines 102–103: truncate to the first `top_n = 10` rows. -/
def df_para_plotar (l : List Record) : List (String × ℤ) := (df_locais l).take 10

/-- Line 123: category breakdown, `groupby("Tipo")["Quantidade"].sum()`. -/
def df_tipo (l : List Record) : List (String × ℤ) :=
  groupby_sum (fun r => r.tipo) l

/-- Line 139: subcategory breakdown for the pie chart,
`groupby("Subtipo")["Quantidade"].sum()`. -/
def df_subtipo_pie (l : List Record) : List (String × ℤ) :=
  groupby_sum (fun r => some r.subtipo) l

/-- Line 57: `sorted(df["Tipo"].dropna().unique())` — the selectable category
options, built from the non-missing `Tipo` values of the Dataset. -/
def tipo_unico (df : List Record) : List String :=
  sortLe strAsc (uniqueFirst (df.filterMap (fun r => r.tipo)))

/-- The three sequential conditional filters are one `filter` by the
conjunction of the three (conditionally skipped) predicates. -/
theorem df_filtrado_eq_filter (fs : FilterState) (df : List Record) :
    df_filtrado fs df = df.filter (fullPred fs) := by
  unfold df_filtrado fullPred
  by_cases h1 : fs.tipo_opcao = "Todos" <;>
    by_cases h2 : fs.subtipo_opcao = "Todos" <;>
      by_cases h3 : fs.busca_local = "" <;>
        simp [h1, h2, h3, List.filter_filter, Bool.and_comm, Bool.and_left_comm]

/-- C2: for every Dataset and FilterState the filter engine returns exactly
the rows satisfying all three predicates — category equality (skipped when
the category is `"Todos"`), subcategory equality (skipped when the
subcategory is `"Todos"`), and the location search (skipped when the term is
empty) — and the output is a subsequence of the Dataset, so the Dataset's
record order is preserved restricted to matching rows. -/
theorem df_filtrado_spec (fs : FilterState) (df : List Record) :
    df_filtrado fs df = df.filter (fullPred fs)
    ∧ (df_filtrado fs df).Sublist df := by
  refine ⟨df_filtrado_eq_filter fs df, ?_⟩
  rw [df_filtrado_eq_filter]
  exact List.filter_sublist df

/-- C7: filtering is idempotent — applying the filter engine to its own
output with the same FilterState returns the same record sequence. -/
theorem df_filtrado_idempotent (fs : FilterState) (df : List Record) :
    df_filtrado fs (df_filtrado fs df) = df_filtrado fs df := by
  rw [df_filtrado_eq_filter fs df, df_filtrado_eq_filter, List.filter_filter]
  exact List.filter_congr (fun r _ => Bool.and_self (fullPred fs r))

/-- C8: filtering by a category and a subcategory together yields a
subsequence — in particular a subset — of filtering by that category alone
(same search term in both). -/
theorem df_filtrado_subtipo_subset (df : List Record) (t s b : String) :
    (df_filtrado ⟨t, s, b⟩ df).Sublist (df_filtrado ⟨t, "Todos", b⟩ df) := by
  rw [df_filtrado_eq_filter, df_filtrado_eq_filter]
  refine List.monotone_filter_right df ?_
  intro r h
  simp only [fullPred, Bool.and_eq_true, Bool.or_eq_true, decide_eq_true_eq] at h ⊢
  exact ⟨⟨h.1.1, Or.inl trivial⟩, h.2⟩

/-- C1 fails as stated: a raw row whose `Quantidade` cell holds the numeric
value −3 passes numeric coercion and the `dropna`, so the cleaned Dataset
retains a record with a negative `Quantidade`. -/
theorem negative_quantidade_retained :
    ∃ r ∈ carregar_dados [⟨none, some "S", some "L", some (-3 : ℚ)⟩],
      r.quantidade < 0 := by decide

/-- C1 (amended): every record retained by the cleaning stage has an integer
`Quantidade` — the truncation of the coerced cell value — and a present
`Subtipo` and `Locais`; exactly the rows whose `Quantidade` fails numeric
coercion or whose `Subtipo` or `Locais` is missing are dropped, in Dataset
order.  (Nothing bounds the sign of `Quantidade`.) -/
theorem carregar_dados_characterization (rows : List RawRecord) :
    carregar_dados rows =
      (rows.filter
          (fun r => r.quantidade.isSome && r.subtipo.isSome && r.locais.isSome)).map
        (fun r => ⟨r.tipo, r.subtipo.getD "", r.locais.getD "", truncQ (r.quantidade.getD 0)⟩) := by
  induction rows with
  | nil => rfl
  | cons r rs ih =>
    rcases r with ⟨t, s, lc, q⟩
    cases q <;> cases s <;> cases lc <;>
      (simp only [carregar_dados] at ih;
       simp [carregar_dados, cleanRow, List.filter_cons, ih])

/-- The `idxmax` scan splits its input around the returned row: every row
strictly before it is strictly smaller, and no row beats it. -/
theorem maxAcc_decomp (rs : List Record) (m : Record) :
    ∃ l₁ l₂, m :: rs = l₁ ++ maxAcc m rs :: l₂
      ∧ (∀ y ∈ m :: rs, y.quantidade ≤ (maxAcc m rs).quantidade)
      ∧ (∀ y ∈ l₁, y.quantidade < (maxAcc m rs).quantidade) := by
  induction rs generalizing m with
  | nil =>
    exact ⟨[], [], rfl, by simp [maxAcc], by simp⟩
  | cons r rs ih =>
    have hstep : maxAcc m (r :: rs)
        = maxAcc (if m.quantidade < r.quantidade then r else m) rs := rfl
    by_cases h : m.quantidade < r.quantidade
    · obtain ⟨l₁, l₂, heq, hmax, hlt⟩ := ih r
      rw [if_pos h] at hstep
      refine ⟨m :: l₁, l₂, ?_, ?_, ?_⟩
      · rw [hstep]
        simpa using heq
      · intro y hy
        rw [hstep]
        rcases List.mem_cons.mp hy with hy | hy
        · subst hy
          exact le_of_lt (lt_of_lt_of_le h (hmax r (List.mem_cons_self r rs)))
        · exact hmax y hy
      · intro y hy
        rw [hstep]
        rcases List.mem_cons.mp hy with hy | hy
        · subst hy
          exact lt_of_lt_of_le h (hmax r (List.mem_cons_self r rs))
        · exact hlt y hy
    · obtain ⟨l₁, l₂, heq, hmax, hlt⟩ := ih m
      rw [if_neg h] at hstep
      have hr : r.quantidade ≤ m.quantidade := le_of_not_lt h
      cases l₁ with
      | nil =>
        rw [List.nil_append] at heq
        injection heq with h1 h2
        refine ⟨[], r :: rs, ?_, ?_, by simp⟩
        · rw [hstep, ← h1, List.nil_append]
        · intro y hy
          rw [hstep, ← h1]
          rcases List.mem_cons.mp hy with hy | hy
          · rw [hy]
          · rcases List.mem_cons.mp hy with hy | hy
            · rw [hy]
              exact hr
            · have hy2 := hmax y (List.mem_cons_of_mem m hy)
              rwa [← h1] at hy2
      | cons a t =>
        rw [List.cons_append] at heq
        injection heq with h1 h2
        have hma : m ∈ a :: t := by rw [h1]; exact List.mem_cons_self a t
        refine ⟨m :: r :: t, l₂, ?_, ?_, ?_⟩
        · rw [hstep]
          simp only [List.cons_append]
          exact congrArg (List.cons m) (congrArg (List.cons r) h2)
        · intro y hy
          rw [hstep]
          rcases List.mem_cons.mp hy with hy | hy
          · rw [hy]
            exact hmax m (List.mem_cons_self m rs)
          · rcases List.mem_cons.mp hy with hy | hy
            · rw [hy]
              exact le_trans hr (hmax m (List.mem_cons_self m rs))
            · exact hmax y (List.mem_cons_of_mem m hy)
        · intro y hy
          rw [hstep]
          rcases List.mem_cons.mp hy with hy | hy
          · rw [hy]
            exact hlt m hma
          · rcases List.mem_cons.mp hy with hy | hy
            · rw [hy]
              exact lt_of_le_of_lt hr (hlt m hma)
            · exact hlt y (List.mem_cons_of_mem a hy)

/-- C4: on a non-empty row sequence the max-row lookup returns a row of the
sequence with the largest `Quantidade`, and every row strictly before the
returned one has a strictly smaller `Quantidade` — so ties for the maximum
are broken by first occurrence in input order. -/
theorem maior_linha_spec (l : List Record) (h : l ≠ []) :
    ∃ m l₁ l₂, maior_linha l = some m ∧ l = l₁ ++ m :: l₂
      ∧ (∀ y ∈ l, y.quantidade ≤ m.quantidade)
      ∧ (∀ y ∈ l₁, y.quantidade < m.quantidade) := by
  cases l with
  | nil => exact absurd rfl h
  | cons r rs =>
    obtain ⟨l₁, l₂, heq, hmax, hlt⟩ := maxAcc_decomp rs r
    exact ⟨maxAcc r rs, l₁, l₂, rfl, heq, hmax, hlt⟩

/-- Witness for C4 at the spec's tie-break example: two locations A and B
both with `Quantidade` 5. -/
theorem maior_linha_spec_witness :
    ([(⟨none, "S", "A", 5⟩ : Record), ⟨none, "S", "B", 5⟩] ≠ [])
    ∧ ∃ m l₁ l₂,
        maior_linha [(⟨none, "S", "A", 5⟩ : Record), ⟨none, "S", "B", 5⟩] = some m
        ∧ [(⟨none, "S", "A", 5⟩ : Record), ⟨none, "S", "B", 5⟩] = l₁ ++ m :: l₂
        ∧ (∀ y ∈ [(⟨none, "S", "A", 5⟩ : Record), ⟨none, "S", "B", 5⟩],
            y.quantidade ≤ m.quantidade)
        ∧ (∀ y ∈ l₁, y.quantidade < m.quantidade) :=
  ⟨by decide, maior_linha_spec [⟨none, "S", "A", 5⟩, ⟨none, "S", "B", 5⟩] (by decide)⟩

/-- C9's "become smaller integers" fails for negative fractional values: the
cell −5/2 is retained and `astype(int)` truncates toward zero, giving −2,
which is not smaller than −5/2. -/
theorem fractional_negative_truncates_up :
    carregar_dados [⟨none, some "S", some "L", some (mkRat (-5) 2)⟩]
      = [⟨none, "S", "L", -2⟩]
    ∧ ¬ ((-2 : ℚ) < mkRat (-5) 2) := by decide

/-- C9 (amended): a row whose `Quantidade` cell holds a fractional numeric
value is not dropped — numeric coercion succeeds, the row is retained, and
its `Quantidade` becomes the truncation of the value toward zero; for
non-negative non-integer values this is a strictly smaller integer (for
negative ones it is larger). -/
theorem fractional_quantidade_truncated (t : Option String) (s loc : String)
    (q : ℚ) (hden : q.den ≠ 1) (hpos : 0 ≤ q) :
    carregar_dados [⟨t, some s, some loc, some q⟩] = [⟨t, s, loc, truncQ q⟩]
    ∧ (truncQ q : ℚ) < q := by
  refine ⟨rfl, ?_⟩
  have hnum : 0 ≤ q.num := Rat.num_nonneg.mpr hpos
  have hden0 : (0 : ℤ) ≤ (q.den : ℤ) := Int.natCast_nonneg q.den
  have htd : truncQ q = ⌊q⌋ := by
    rw [truncQ, Int.tdiv_eq_ediv hnum hden0, Rat.floor_def]
  rw [htd]
  rcases lt_or_eq_of_le (Int.floor_le q) with hlt | heqq
  · exact hlt
  · exfalso
    apply hden
    rw [← heqq]
    exact Rat.den_intCast ⌊q⌋

/-- Witness for C9 at the cell value 5/2: the row is retained and its
`Quantidade` truncates to a strictly smaller integer. -/
theorem fractional_quantidade_truncated_witness :
    (mkRat 5 2).den ≠ 1 ∧ (0 : ℚ) ≤ mkRat 5 2
    ∧ (carregar_dados [⟨none, some "S", some "L", some (mkRat 5 2)⟩]
          = [⟨none, "S", "L", truncQ (mkRat 5 2)⟩]
        ∧ (truncQ (mkRat 5 2) : ℚ) < mkRat 5 2) :=
  ⟨by decide, by decide,
    fractional_quantidade_truncated none "S" "L" (mkRat 5 2) (by decide) (by decide)⟩

/-- Membership in a stable insertion. -/
theorem mem_insertLe {α : Type} (le : α → α → Bool) (a x : α) (l : List α) :
    x ∈ insertLe le a l ↔ x = a ∨ x ∈ l := by
  induction l with
  | nil => simp [insertLe]
  | cons b bs ih =>
    by_cases h : le a b = true
    · simp [insertLe, h]
    · simp only [insertLe, if_neg h, List.mem_cons, ih]
      tauto

/-- Sorting does not change the members of a list. -/
theorem mem_sortLe {α : Type} (le : α → α → Bool) (x : α) (l : List α) :
    x ∈ sortLe le l ↔ x ∈ l := by
  induction l with
  | nil => simp [sortLe]
  | cons a as ih => simp [sortLe, mem_insertLe, ih]

/-- Inserting into a sorted list keeps it sorted, for a total transitive
comparison. -/
theorem pairwise_insertLe {α : Type} (le : α → α → Bool) (a : α) (l : List α)
    (htot : ∀ x y, le x y = true ∨ le y x = true)
    (htrans : ∀ x y z, le x y = true → le y z = true → le x z = true)
    (hl : l.Pairwise (fun x y => le x y = true)) :
    (insertLe le a l).Pairwise (fun x y => le x y = true) := by
  induction l with
  | nil => simp [insertLe]
  | cons b bs ih =>
    rw [List.pairwise_cons] at hl
    obtain ⟨hb, hbs⟩ := hl
    by_cases h : le a b = true
    · rw [insertLe, if_pos h, List.pairwise_cons]
      refine ⟨?_, List.pairwise_cons.mpr ⟨hb, hbs⟩⟩
      intro y hy
      rcases List.mem_cons.mp hy with hy | hy
      · subst hy; exact h
      · exact htrans a b y h (hb y hy)
    · rw [insertLe, if_neg h, List.pairwise_cons]
      refine ⟨?_, ih hbs⟩
      intro y hy
      rcases (mem_insertLe le a y bs).mp hy with hy | hy
      · rw [hy]
        rcases htot a b with hab | hba
        · exact absurd hab h
        · exact hba
      · exact hb y hy

/-- Insertion sort sorts, for a total transitive comparison. -/
theorem pairwise_sortLe {α : Type} (le : α → α → Bool) (l : List α)
    (htot : ∀ x y, le x y = true ∨ le y x = true)
    (htrans : ∀ x y z, le x y = true → le y z = true → le x z = true) :
    (sortLe le l).Pairwise (fun x y => le x y = true) := by
  induction l with
  | nil => simp [sortLe]
  | cons a as ih => exact pairwise_insertLe le a _ htot htrans ih

/-- Membership in `uniqueFirstAux`: the values of the list not yet seen. -/
theorem mem_uniqueFirstAux (l : List String) (seen : List String) (x : String) :
    x ∈ uniqueFirstAux seen l ↔ x ∈ l ∧ x ∉ seen := by
  induction l generalizing seen with
  | nil => simp [uniqueFirstAux]
  | cons k ks ih =>
    by_cases h : k ∈ seen
    · rw [uniqueFirstAux, if_pos h, ih]
      simp only [List.mem_cons]
      constructor
      · rintro ⟨hx, hnx⟩
        exact ⟨Or.inr hx, hnx⟩
      · rintro ⟨hx | hx, hnx⟩
        · exact absurd (hx ▸ h) hnx
        · exact ⟨hx, hnx⟩
    · rw [uniqueFirstAux, if_neg h]
      simp only [List.mem_cons, ih, List.mem_cons]
      by_cases hxk : x = k
      · subst hxk
        simp [h]
      · simp only [hxk, false_or]

/-- `uniqueFirst` keeps exactly the values of the list. -/
theorem mem_uniqueFirst (l : List String) (x : String) :
    x ∈ uniqueFirst l ↔ x ∈ l := by
  rw [uniqueFirst, mem_uniqueFirstAux]
  simp

/-- C10's "included in every result where the category filter is Todos"
fails: a row with missing `Tipo` is in the Dataset and the category filter is
`"Todos"`, yet the subcategory filter (set to "S2") excludes it from the
result. -/
theorem missing_tipo_excluded_by_subtipo :
    ((⟨none, "S1", "L", 1⟩ : Record) ∈ ([⟨none, "S1", "L", 1⟩] : List Record))
    ∧ df_filtrado ⟨"Todos", "S2", ""⟩ [⟨none, "S1", "L", 1⟩] = [] := by decide

/-- C10 (amended): a row with a missing `Tipo` but present `Quantidade`,
`Subtipo` and `Locais` survives cleaning in place; such a record is in every
filter result whose category filter is `"Todos"` and whose subcategory and
search filters do not themselves exclude it; the selectable category options
all come from non-missing `Tipo` values of the Dataset, and no option value
ever equals the row's (missing) `Tipo`. -/
theorem missing_tipo_spec (rows : List RawRecord) (s loc : String) (q : ℚ)
    (df : List Record) (rec : Record) (fs : FilterState)
    (hrec : rec.tipo = none) (hmem : rec ∈ df)
    (ht : fs.tipo_opcao = "Todos")
    (hs : fs.subtipo_opcao = "Todos" ∨ rec.subtipo = fs.subtipo_opcao)
    (hb : fs.busca_local = ""
      ∨ str_contains_ci_na_false (some rec.locais) fs.busca_local = true) :
    carregar_dados (⟨none, some s, some loc, some q⟩ :: rows)
      = ⟨none, s, loc, truncQ q⟩ :: carregar_dados rows
    ∧ rec ∈ df_filtrado fs df
    ∧ (∀ t ∈ tipo_unico df, rec.tipo ≠ some t)
    ∧ (∀ t ∈ tipo_unico df, ∃ r ∈ df, r.tipo = some t) := by
  refine ⟨rfl, ?_, ?_, ?_⟩
  · rw [df_filtrado_eq_filter, List.mem_filter]
    refine ⟨hmem, ?_⟩
    simp only [fullPred, Bool.and_eq_true, Bool.or_eq_true, decide_eq_true_eq]
    exact ⟨⟨Or.inl ht, hs⟩, hb⟩
  · intro t _
    rw [hrec]
    exact fun hc => Option.noConfusion hc
  · intro t htmem
    rw [tipo_unico] at htmem
    have h2 := (mem_sortLe strAsc t _).mp htmem
    have h3 := (mem_uniqueFirst _ t).mp h2
    exact List.mem_filterMap.mp h3

/-- Witness for C10's amended statement: one raw row with missing `Tipo`, a
one-record Dataset and the all-pass FilterState. -/
theorem missing_tipo_spec_witness :
    ((⟨none, "S1", "L", 1⟩ : Record).tipo = none)
    ∧ ((⟨none, "S1", "L", 1⟩ : Record) ∈ ([⟨none, "S1", "L", 1⟩] : List Record))
    ∧ ((⟨"Todos", "Todos", ""⟩ : FilterState).tipo_opcao = "Todos")
    ∧ (carregar_dados [⟨none, some "S1", some "L", some 1⟩]
          = ⟨none, "S1", "L", truncQ 1⟩ :: carregar_dados []
        ∧ (⟨none, "S1", "L", 1⟩ : Record)
            ∈ df_filtrado ⟨"Todos", "Todos", ""⟩ [⟨none, "S1", "L", 1⟩]
        ∧ (∀ t ∈ tipo_unico [(⟨none, "S1", "L", 1⟩ : Record)],
            (⟨none, "S1", "L", 1⟩ : Record).tipo ≠ some t)
        ∧ (∀ t ∈ tipo_unico [(⟨none, "S1", "L", 1⟩ : Record)],
            ∃ r ∈ ([⟨none, "S1", "L", 1⟩] : List Record), r.tipo = some t)) :=
  ⟨rfl, by decide, rfl,
    missing_tipo_spec [] "S1" "L" 1 [⟨none, "S1", "L", 1⟩] ⟨none, "S1", "L", 1⟩
      ⟨"Todos", "Todos", ""⟩ rfl (by decide) rfl (Or.inl rfl) (Or.inl rfl)⟩

/-- The lexicographic order on character lists is total. -/
theorem charListLe_total (a b : List Char) :
    charListLe a b = true ∨ charListLe b a = true := by
  induction a generalizing b with
  | nil => exact Or.inl rfl
  | cons x xs ih =>
    cases b with
    | nil => exact Or.inr rfl
    | cons y ys =>
      by_cases hxy : x = y
      · rcases ih ys with h | h
        · exact Or.inl (by simp [charListLe, hxy, h])
        · refine Or.inr (by simp [charListLe, hxy.symm, h])
      · rcases lt_trichotomy x y with h | h | h
        · exact Or.inl (by simp [charListLe, hxy, h])
        · exact absurd h hxy
        · refine Or.inr ?_
          have hyx : ¬ y = x := fun hh => hxy hh.symm
          simp [charListLe, hyx, h]

/-- The lexicographic order on character lists is transitive. -/
theorem charListLe_trans (a : List Char) : ∀ b c : List Char,
    charListLe a b = true → charListLe b c = true → charListLe a c = true := by
  induction a with
  | nil => intro b c _ _; rfl
  | cons x xs ih =>
    intro b c h1 h2
    cases b with
    | nil => exact absurd h1 (by simp [charListLe])
    | cons y ys =>
      cases c with
      | nil => exact absurd h2 (by simp [charListLe])
      | cons z zs =>
        by_cases hxy : x = y <;> by_cases hyz : y = z
        · have hxz : x = z := hxy.trans hyz
          simp only [charListLe, if_pos hxy] at h1
          simp only [charListLe, if_pos hyz] at h2
          simp only [charListLe, if_pos hxz]
          exact ih ys zs h1 h2
        · simp only [charListLe, if_pos hxy] at h1
          simp only [charListLe, if_neg hyz] at h2
          have hlt : y < z := of_decide_eq_true h2
          have hxz : ¬ x = z := fun hh => hyz (hxy.symm.trans hh)
          simp only [charListLe, if_neg hxz]
          exact decide_eq_true (hxy ▸ hlt)
        · simp only [charListLe, if_neg hxy] at h1
          simp only [charListLe, if_pos hyz] at h2
          have hlt : x < y := of_decide_eq_true h1
          have hxz : ¬ x = z := fun hh => hxy (hh.trans hyz.symm)
          simp only [charListLe, if_neg hxz]
          exact decide_eq_true (hyz ▸ hlt)
        · simp only [charListLe, if_neg hxy] at h1
          simp only [charListLe, if_neg hyz] at h2
          have hlt : x < z := lt_trans (of_decide_eq_true h1) (of_decide_eq_true h2)
          have hxz : ¬ x = z := ne_of_lt hlt
          simp only [charListLe, if_neg hxz]
          exact decide_eq_true hlt

/-- The string order used for option lists and group keys is total. -/
theorem strAsc_total (a b : String) : strAsc a b = true ∨ strAsc b a = true :=
  charListLe_total a.data b.data

/-- The string order used for option lists and group keys is transitive. -/
theorem strAsc_trans (a b c : String) :
    strAsc a b = true → strAsc b c = true → strAsc a c = true :=
  charListLe_trans a.data b.data c.data

/-- The descending-by-sum comparison is total. -/
theorem descBySum_total (x y : String × ℤ) :
    descBySum x y = true ∨ descBySum y x = true := by
  rcases le_total x.2 y.2 with h | h
  · exact Or.inr (decide_eq_true h)
  · exact Or.inl (decide_eq_true h)

/-- The descending-by-sum comparison is transitive. -/
theorem descBySum_trans (x y z : String × ℤ) :
    descBySum x y = true → descBySum y z = true → descBySum x z = true := by
  intro h1 h2
  exact decide_eq_true (le_trans (of_decide_eq_true h2) (of_decide_eq_true h1))

/-- C5: the Top-N pipeline groups the filtered rows by `Locais` summing
`Quantidade`, sorts descending by the summed quantity and truncates to the
first 10: the result never has more than 10 groups, its sums are
non-increasing, and every returned pair is one of the `Locais` groups, its
second component being the sum of `Quantidade` over the rows of that
location. -/
theorem df_para_plotar_spec (l : List Record) :
    (df_para_plotar l).length ≤ 10
    ∧ (df_para_plotar l).Pairwise (fun a b => b.2 ≤ a.2)
    ∧ ∀ p ∈ df_para_plotar l,
        p ∈ groupby_sum (fun r => some r.locais) l
        ∧ p.2 = sumQ (l.filter (fun r => decide (r.locais = p.1))) := by
  refine ⟨?_, ?_, ?_⟩
  · rw [df_para_plotar, List.length_take]
    exact min_le_left _ _
  · have hs : (df_locais l).Pairwise (fun a b => descBySum a b = true) :=
      pairwise_sortLe descBySum _ descBySum_total descBySum_trans
    have hp := List.Pairwise.sublist (List.take_sublist 10 (df_locais l)) hs
    exact hp.imp (fun h => of_decide_eq_true h)
  · intro p hp
    have hmem : p ∈ df_locais l := (List.take_sublist 10 (df_locais l)).subset hp
    rw [df_locais] at hmem
    have hmem2 : p ∈ groupby_sum (fun r => some r.locais) l :=
      (mem_sortLe _ _ _).mp hmem
    refine ⟨hmem2, ?_⟩
    rw [groupby_sum] at hmem2
    obtain ⟨k, _, hpk⟩ := List.mem_map.mp hmem2
    cases hpk
    simp only
    congr 1
    apply List.filter_congr
    intro r _
    simp [decide_eq_decide]

/-- C6 fails as stated: with rows whose `Tipo` values first appear in the
order B, A, the category breakdown lists its groups as A then B — `groupby`
sorts the group keys — not in insertion order of first appearance (B then
A). -/
theorem breakdown_not_insertion_order :
    (df_tipo [⟨some "B", "S", "L1", 1⟩, ⟨some "A", "S", "L2", 2⟩]).map Prod.fst
      = ["A", "B"]
    ∧ uniqueFirst (([⟨some "B", "S", "L1", 1⟩,
        ⟨some "A", "S", "L2", 2⟩] : List Record).filterMap (fun r => r.tipo))
      = ["B", "A"]
    ∧ (df_tipo [⟨some "B", "S", "L1", 1⟩, ⟨some "A", "S", "L2", 2⟩]).map Prod.fst
      ≠ uniqueFirst (([⟨some "B", "S", "L1", 1⟩,
          ⟨some "A", "S", "L2", 2⟩] : List Record).filterMap (fun r => r.tipo)) := by
  decide

/-- C6 (amended): the group-by-sum behind the category and subcategory
breakdown views yields its groups in ascending order of the group key
(pandas `groupby` sorts group keys by default) — an order distinct from the
descending-by-sum order used for the top-N view. -/
theorem breakdown_groups_sorted_by_key (l : List Record) :
    (df_tipo l).Pairwise (fun a b => strAsc a.1 b.1 = true)
    ∧ (df_subtipo_pie l).Pairwise (fun a b => strAsc a.1 b.1 = true) := by
  constructor
  · rw [df_tipo, groupby_sum, List.pairwise_map]
    exact pairwise_sortLe strAsc _ strAsc_total strAsc_trans
  · rw [df_subtipo_pie, groupby_sum, List.pairwise_map]
    exact pairwise_sortLe strAsc _ strAsc_total strAsc_trans

/-- A pattern with no regex metacharacter parses as the list of its
characters taken literally. -/
theorem parsePat_all_lit (cs : List Char) (h : ∀ c ∈ cs, c ∉ regexMeta) :
    parsePat cs = some (cs.map RTok.lit) := by
  induction cs with
  | nil => rfl
  | cons c cs ih =>
    have hc : c ∉ regexMeta := h c (List.mem_cons_self c cs)
    have hdot : ¬ c = '.' := fun hh => hc (by rw [hh]; decide)
    simp [parsePat, parseTok, hdot, hc,
      ih (fun x hx => h x (List.mem_cons_of_mem c hx))]

/-- A pattern of literal tokens matches at a position exactly when it is a
prefix there. -/
theorem matchHere_map_lit (ts : List Char) : ∀ cs : List Char,
    matchHere (ts.map RTok.lit) cs = ts.isPrefixOf cs := by
  induction ts with
  | nil => intro cs; cases cs <;> rfl
  | cons t ts ih =>
    intro cs
    cases cs with
    | nil => rfl
    | cons c cs => simp [matchHere, tokMatch, List.isPrefixOf, ih]

/-- For a search term with no regex metacharacter, the modelled
`str.contains` is exactly case-insensitive substring containment. -/
theorem str_contains_eq_containsCI (s term : String)
    (hlit : ∀ c ∈ lowerChars term, c ∉ regexMeta) :
    str_contains_ci_na_false (some s) term = containsCI s term := by
  simp only [str_contains_ci_na_false, containsCI, parsePat_all_lit _ hlit,
    regexSearch]
  congr 1
  funext suf
  exact matchHere_map_lit _ suf

/-- C3 fails as stated: the non-empty search term "." is not contained in
"AB" as a substring (case-insensitively or otherwise), yet the search
retains the record — `str.contains` interprets the term as a regular
expression (pandas default `regex=True`), where `.` matches any single
character. -/
theorem search_dot_matches_everything :
    df_filtrado ⟨"Todos", "Todos", "."⟩ [⟨none, "S", "AB", 1⟩]
      = [⟨none, "S", "AB", 1⟩]
    ∧ containsCI "AB" "." = false := by decide

/-- C3 (amended): for a non-empty search term none of whose characters is a
regex metacharacter, the search retains exactly the records whose `Locais`
contains the term case-insensitively as a substring; and a missing `Locais`
cell never matches a non-empty term (`na=False`).  A term containing
metacharacters is instead interpreted as a regular expression by
`str.contains` (pandas default `regex=True`). -/
theorem search_is_substring_for_literal_terms (df : List Record) (term : String)
    (hne : term ≠ "")
    (hlit : ∀ c ∈ lowerChars term, c ∉ regexMeta) :
    df_filtrado ⟨"Todos", "Todos", term⟩ df
      = df.filter (fun r => containsCI r.locais term)
    ∧ str_contains_ci_na_false none term = false := by
  refine ⟨?_, rfl⟩
  rw [df_filtrado_eq_filter]
  apply List.filter_congr
  intro r _
  simp only [fullPred]
  simp [hne, str_contains_eq_containsCI r.locais term hlit]

/-- Witness for C3's amended statement at the spec's example term "l2" over
a two-record Dataset. -/
theorem search_is_substring_witness :
    ("l2" ≠ "")
    ∧ (∀ c ∈ lowerChars "l2", c ∉ regexMeta)
    ∧ (df_filtrado ⟨"Todos", "Todos", "l2"⟩
          [(⟨none, "S", "Rua L2 Sul", 1⟩ : Record), ⟨none, "S", "Outro", 2⟩]
        = ([⟨none, "S", "Rua L2 Sul", 1⟩,
            ⟨none, "S", "Outro", 2⟩] : List Record).filter
            (fun r => containsCI r.locais "l2")
        ∧ str_contains_ci_na_false none "l2" = false) :=
  ⟨by decide, by decide,
    search_is_substring_for_literal_terms
      [⟨none, "S", "Rua L2 Sul", 1⟩, ⟨none, "S", "Outro", 2⟩] "l2"
      (by decide) (by decide)⟩

end Araras
